import Mathlib

/-!
Verification of the Mern-Movie backend's algorithmic core: the
recommendation scoring engine, the feed composer (personalized and
trending feeds), the batch insert queue, and the interaction-tracking
validation. JavaScript numbers are embedded as rationals; a computation
that produces NaN in JavaScript (the only source here is the unguarded
division `matchingGenres / movieGenres.length` when the genre list is
empty, which evaluates to `0/0`) is embedded as `Option ℚ` with `none`
standing for NaN. `Math.min(NaN, x)` is NaN, and NaN propagates through
`+` and `*`, which `Option.map` over the whole score expression captures,
since the genre sub-score is the sole possible NaN source in the score.
Timestamps and dates are milliseconds since the epoch (`ℤ`), with the
current time passed explicitly as `now`.
-/

namespace MernMovie

/-- A user interaction record as used by the scoring code: only the movie
id and the optional `metadata.timestamp` field are read. `none` models a
missing timestamp (JS `undefined`), for which the comparison
`interaction.metadata?.timestamp >= sevenDaysAgo` is false. -/
structure Interaction where
  movieId : ℕ
  timestamp : Option ℤ
deriving DecidableEq, Repr

/-- The movie fields read by the scoring engine and feed composer. -/
structure Movie where
  id : ℕ
  genre : List String
  director : String
  rating : ℚ
  releaseDate : ℤ
deriving DecidableEq, Repr

/-- The user's `interactionHistory` aggregate as read by the scoring
engine: preferred genres, preferred directors, and the ids of already
viewed movies. -/
structure UserInteractions where
  preferredGenres : List String
  preferredDirectors : List String
  viewedMovies : List ℕ
deriving DecidableEq, Repr

/-- JavaScript's `String.prototype.toLowerCase()`: lower-case the string
character by character. (Defined structurally over the character list so
that concrete instances evaluate inside the kernel.) -/
def jsToLower (s : String) : String := ⟨s.data.map Char.toLower⟩

/-- `metadata?.timestamp >= d` in JavaScript: false when the timestamp is
absent (`undefined`), otherwise the integer comparison. -/
def tsGe (ts : Option ℤ) (d : ℤ) : Bool :=
  match ts with
  | some t => d ≤ t
  | none => false

/-- Milliseconds in seven days; `sevenDaysAgo.setDate(getDate() - 7)`. -/
def sevenDaysMs : ℤ := 7 * 24 * 60 * 60 * 1000

/-- `calculateGenreWeight(movieGenres, userInteractions)`: 0.5 with no
genre history, otherwise `min(matchingGenres / movieGenres.length, 1.0)`
with a case-insensitive match. With an empty `movieGenres` the division
is `0 / 0`, i.e. NaN, embedded as `none`. -/
def calculateGenreWeight (movieGenres : List String)
    (userInteractions : UserInteractions) : Option ℚ :=
  if userInteractions.preferredGenres = [] then
    some 0.5
  else
    let matchingGenres := (movieGenres.filter fun genre =>
      userInteractions.preferredGenres.any fun pref =>
        jsToLower pref == jsToLower genre).length
    if movieGenres.length = 0 then
      none
    else
      some (min ((matchingGenres : ℚ) / (movieGenres.length : ℚ)) 1)

/-- `calculateDirectorWeight(movieDirector, userInteractions)`: 0.5 with
no director history, 1.0 if the director is among the user's liked
directors (case-insensitive), 0.3 otherwise. -/
def calculateDirectorWeight (movieDirector : String)
    (userInteractions : UserInteractions) : ℚ :=
  if userInteractions.preferredDirectors = [] then
    0.5
  else
    let likedDirectors := userInteractions.preferredDirectors.map jsToLower
    if likedDirectors.contains (jsToLower movieDirector) then 1.0 else 0.3

/-- The count of interactions on `movie` whose `metadata.timestamp` is at
least seven days before `now` — the filter duplicated in
`calculatePopularity` and `getTrendingMovies`. -/
def recentInteractionCount (movie : Movie) (allInteractions : List Interaction)
    (now : ℤ) : ℕ :=
  (allInteractions.filter fun interaction =>
    interaction.movieId == movie.id &&
      tsGe interaction.timestamp (now - sevenDaysMs)).length

/-- `calculatePopularity(movie, allInteractions)`: interactions in the
last seven days, scaled linearly, capped at 1.0 at 100 interactions. -/
def calculatePopularity (movie : Movie) (allInteractions : List Interaction)
    (now : ℤ) : ℚ :=
  min ((recentInteractionCount movie allInteractions now : ℚ) / 100) 1

/-- `calculateRecency(releaseDate)`: step function of years since
release, where a year is `1000*60*60*24*365` milliseconds. -/
def calculateRecency (releaseDate : ℤ) (now : ℤ) : ℚ :=
  let yearsDiff : ℚ := ((now - releaseDate : ℤ) : ℚ) / (1000 * 60 * 60 * 24 * 365)
  if yearsDiff ≤ 5 then 1.0
  else if yearsDiff ≤ 10 then 0.7
  else if yearsDiff ≤ 20 then 0.5
  else 0.3

/-- `calculateInteractionWeight(movieId, userInteractions)`: 0.1 when the
movie is already in `viewedMovies`, else the 0.8 novelty bonus. -/
def calculateInteractionWeight (movieId : ℕ)
    (userInteractions : UserInteractions) : ℚ :=
  if userInteractions.viewedMovies.contains movieId then 0.1 else 0.8

/-- `calculateRecommendationScore(movie, userInteractions,
allInteractions)`: the weighted sum of the six sub-scores, clamped by
`Math.min(score, 1.0)`. The genre sub-score is the only possible NaN
(`none`), and NaN propagates through the sum and the final `Math.min`,
which the `Option.map` captures. -/
def calculateRecommendationScore (movie : Movie)
    (userInteractions : UserInteractions) (allInteractions : List Interaction)
    (now : ℤ) : Option ℚ :=
  (calculateGenreWeight movie.genre userInteractions).map fun genreWeight =>
    let score : ℚ :=
      genreWeight * 0.4
      + calculateDirectorWeight movie.director userInteractions * 0.2
      + (movie.rating / 10) * 0.15
      + calculatePopularity movie allInteractions now * 0.1
      + calculateRecency movie.releaseDate now * 0.1
      + calculateInteractionWeight movie.id userInteractions * 0.05
    min score 1

/-! ## Feed composer

`Array.prototype.sort` with the comparator `(a, b) => b.score - a.score`
is, by the ECMAScript specification, a stable sort: `a` is placed after
`b` exactly when the comparator is positive, i.e. when `a.score <
b.score`, and elements the comparator does not strictly order keep their
relative input order. `sortDesc` realizes that contract as a stable
insertion sort; `optLt` evaluates "comparator result is positive", which
is false whenever either score is NaN (`none`). -/

/-- `optLt a b`: the JavaScript comparison `a < b` (equivalently
`b - a > 0`), which is false when either operand is NaN. -/
def optLt : Option ℚ → Option ℚ → Bool
  | some a, some b => a < b
  | _, _ => false

/-- Stable descending insertion: `x` is placed before the first element
whose key is not strictly greater than `x`'s, so earlier input elements
come first among equal keys. -/
def insertDesc {α : Type _} (key : α → Option ℚ) (x : α) : List α → List α
  | [] => [x]
  | y :: ys => if optLt (key x) (key y) then y :: insertDesc key x ys else x :: y :: ys

/-- Stable descending sort by `key` — the model of
`.sort((a, b) => b.key - a.key)`. -/
def sortDesc {α : Type _} (key : α → Option ℚ) : List α → List α
  | [] => []
  | x :: xs => insertDesc key x (sortDesc key xs)

/-- `a` is a numeric score at least as large as the numeric score `b`:
the descending-order relation between adjacent feed entries. -/
def scoreGe (a b : Option ℚ) : Prop :=
  ∃ x y, a = some x ∧ b = some y ∧ y ≤ x

/-- `getPersonalizedFeed(movies, userInteractions, allInteractions,
limit)` (the `limit` default in source is 20): score every movie, sort
descending by score, truncate with `.slice(0, limit)`, return movies. -/
def getPersonalizedFeed (movies : List Movie)
    (userInteractions : UserInteractions) (allInteractions : List Interaction)
    (now : ℤ) (limit : ℕ) : List Movie :=
  let moviesWithScores := movies.map fun movie =>
    (movie, calculateRecommendationScore movie userInteractions allInteractions now)
  (((sortDesc Prod.snd moviesWithScores).take limit).map Prod.fst)

/-- The trending score computed inside `getTrendingMovies`:
`(movie.rating / 10) * 0.5 + Math.min(recentInteractions / 50, 1.0) * 0.5`
over the seven-day interaction window. -/
def trendingScore (movie : Movie) (allInteractions : List Interaction)
    (now : ℤ) : ℚ :=
  (movie.rating / 10) * 0.5
    + min ((recentInteractionCount movie allInteractions now : ℚ) / 50) 1 * 0.5

/-- `getTrendingMovies(movies, allInteractions, limit)` (the `limit`
default in source is 20): sort descending by trending score, truncate,
return movies. -/
def getTrendingMovies (movies : List Movie) (allInteractions : List Interaction)
    (now : ℤ) (limit : ℕ) : List Movie :=
  let moviesWithTrendingScore := movies.map fun movie =>
    (movie, trendingScore movie allInteractions now)
  (((sortDesc (fun p => some p.2) moviesWithTrendingScore).take limit).map Prod.fst)

/-! ## Batch insert queue

The `MovieQueue` with its constructor constants `batchSize = 10`,
`maxRetries = 3`, `processingInterval = 5000`. An item's insert function
is modelled by its outcome on each attempt: `insertOk r` is the result
of the attempt made while the item's retry counter is `r`. `processQueue`
is the `while (this.queue.length > 0)` drain loop: each iteration splices
off a batch of at most `batchSize` items, runs every item (a failure
re-appends the item to the queue tail with `retries` incremented when
`retries < maxRetries`, otherwise the item is dropped with a logged
terminal failure), and continues on the remaining queue. The returned
list records each batch's per-item outcomes in order. -/

namespace MovieQueue

/-- A queue entry: `{ data, insertFunction, retries, timestamp }`. -/
structure QueueItem (α : Type _) where
  data : α
  insertOk : ℕ → Bool
  retries : ℕ
  timestamp : ℤ

/-- Constructor constant `this.batchSize = 10`. -/
def batchSize : ℕ := 10

/-- Constructor constant `this.maxRetries = 3`. -/
def maxRetries : ℕ := 3

/-- Constructor constant `this.processingInterval = 5000`. -/
def processingInterval : ℕ := 5000

/-- `enqueue(movieData, insertFunction)`: push a fresh item with
`retries: 0` onto the queue tail. -/
def enqueue {α : Type _} (queue : List (QueueItem α)) (movieData : α)
    (insertFunction : ℕ → Bool) (now : ℤ) : List (QueueItem α) :=
  queue ++ [⟨movieData, insertFunction, 0, now⟩]

/-- The observable outcome of processing one item in a batch. -/
inductive QEvent (α : Type _) where
  | success (d : α)
  | requeued (d : α)
  | dropped (d : α)
deriving DecidableEq, Repr

/-- One item's processing: success removes it; failure re-queues it with
`retries + 1` when `retries < maxRetries`, else drops it (the logged
terminal failure). Returns the event and the re-queued item, if any. -/
def processItem {α : Type _} (item : QueueItem α) :
    QEvent α × Option (QueueItem α) :=
  if item.insertOk item.retries then
    (.success item.data, none)
  else if item.retries < maxRetries then
    (.requeued item.data, some { item with retries := item.retries + 1 })
  else
    (.dropped item.data, none)

/-- Termination measure: remaining retry budget plus one, per item. -/
def itemBudget {α : Type _} (item : QueueItem α) : ℕ :=
  (maxRetries - min item.retries maxRetries) + 1

/-- Termination measure of the whole queue. -/
def queueMeasure {α : Type _} (queue : List (QueueItem α)) : ℕ :=
  (queue.map itemBudget).sum

/-- `processQueue` as the full drain loop: the list of batches of
per-item events, in execution order. The loop always exits with
`this.queue` empty — every iteration handles a nonempty batch and only
re-queues items with a strictly smaller retry budget. -/
def processQueue {α : Type _} : List (QueueItem α) → List (List (QEvent α))
  | [] => []
  | x :: xs =>
    let queue := x :: xs
    let batch := queue.take batchSize
    let rest := queue.drop batchSize
    (batch.map fun i => (processItem i).1)
      :: processQueue (rest ++ batch.filterMap fun i => (processItem i).2)
termination_by q => queueMeasure q
decreasing_by
  have happ : ∀ a b : List (QueueItem α),
      queueMeasure (a ++ b) = queueMeasure a + queueMeasure b := by
    intro a b; simp [queueMeasure]
  have hitem : ∀ i : QueueItem α,
      queueMeasure ((processItem i).2.toList) + 1 ≤ itemBudget i := by
    rintro ⟨d, f, r, ts⟩
    by_cases hf : f r
    · simp [processItem, hf, queueMeasure, itemBudget]
    · by_cases hr : r < maxRetries
      · simp [processItem, hf, hr, queueMeasure, itemBudget]
        omega
      · simp [processItem, hf, hr, queueMeasure, itemBudget]
  have hreq : ∀ b : List (QueueItem α),
      queueMeasure (b.filterMap fun i => (processItem i).2) + b.length
        ≤ queueMeasure b := by
    intro b
    induction b with
    | nil => simp [queueMeasure]
    | cons y ys ih =>
      have hy := hitem y
      have hcons : ∀ (z : QueueItem α) (zs : List (QueueItem α)),
          queueMeasure (z :: zs) = itemBudget z + queueMeasure zs := by
        intro z zs; simp [queueMeasure]
      rcases h : (processItem y).2 with _ | z
      · simp only [List.filterMap_cons, h, List.length_cons, hcons]
        simp [h, queueMeasure] at hy
        omega
      · simp only [List.filterMap_cons, h, List.length_cons, hcons]
        simp [h, queueMeasure, hcons] at hy
        omega
  simp only [happ]
  have hb : queueMeasure ((x :: xs).take batchSize)
      + queueMeasure ((x :: xs).drop batchSize) = queueMeasure (x :: xs) := by
    rw [← happ, List.take_append_drop]
  have hr := hreq ((x :: xs).take batchSize)
  have hlen : 1 ≤ ((x :: xs).take batchSize).length := by
    simp [batchSize]
  omega

/-- The queue contents produced by `createMoviesBatch`-style sequential
`enqueue` calls, one per payload, all with the same insert function. -/
def enqueueAll {α : Type _} (items : List α) (insertFunction : ℕ → Bool)
    (now : ℤ) : List (QueueItem α) :=
  items.foldl (fun q d => enqueue q d insertFunction now) []

/-! ### Small-step scheduling model

The JavaScript runtime is a single-threaded event loop, so the queue's
behaviour is a sequence of atomic synchronous segments separated by
`await` points and timer callbacks. `QState` records the mutable fields
(`queue`, `processing`), the number of pending `setTimeout(... ,
processingInterval)` callbacks, and a ghost counter `activePasses` of
`processQueue` passes that have set the flag and not yet run their
`finally`. The steps:

* `enqueue` — the push in `enqueue` (its conditional `processQueue()`
  call is a separate `invoke` step, a sound over-approximation);
* `invokeNoop` — `processQueue()` called while `processing` is set or
  the queue is empty: the guard returns without touching the state;
* `invokeStart` — `processQueue()` passes the guard and sets
  `this.processing = true` synchronously, with no `await` between the
  check and the assignment;
* `batchStep` — one iteration of the drain loop inside an active pass
  (only dispatched with the flag set);
* `finish` — the `finally` block of an active pass: clears the flag and,
  when items remain, schedules a timer callback;
* `timerNoop` / `timerStart` — a pending timer fires and calls
  `processQueue()`, which again either returns at the guard or starts a
  pass. -/

/-- The scheduler-visible state of the queue singleton. -/
structure QState (α : Type _) where
  queue : List (QueueItem α)
  processing : Bool
  activePasses : ℕ
  pendingTimers : ℕ

/-- The initial state built by the `MovieQueue` constructor. -/
def initialState (α : Type _) : QState α :=
  ⟨[], false, 0, 0⟩

/-- One drain-loop iteration applied to the queue contents: splice off a
batch, re-append the failed items that still have retry budget. -/
def batchOnce {α : Type _} (queue : List (QueueItem α)) : List (QueueItem α) :=
  queue.drop batchSize ++ (queue.take batchSize).filterMap fun i => (processItem i).2

/-- The small-step transition relation of the queue's event-loop
behaviour. -/
inductive QStep {α : Type _} : QState α → QState α → Prop where
  | enqueue (s : QState α) (d : α) (f : ℕ → Bool) (ts : ℤ) :
      QStep s { s with queue := enqueue s.queue d f ts }
  | invokeNoop (s : QState α) (h : s.processing = true ∨ s.queue = []) :
      QStep s s
  | invokeStart (s : QState α) (h1 : s.processing = false) (h2 : s.queue ≠ []) :
      QStep s { s with processing := true, activePasses := s.activePasses + 1 }
  | batchStep (s : QState α) (h1 : s.processing = true) (h2 : s.queue ≠ []) :
      QStep s { s with queue := batchOnce s.queue }
  | finish (s : QState α) (h : 1 ≤ s.activePasses) :
      QStep s { s with processing := false,
                       activePasses := s.activePasses - 1,
                       pendingTimers :=
                         s.pendingTimers + (if s.queue.isEmpty then 0 else 1) }
  | timerNoop (s : QState α) (ht : 1 ≤ s.pendingTimers)
      (h : s.processing = true ∨ s.queue = []) :
      QStep s { s with pendingTimers := s.pendingTimers - 1 }
  | timerStart (s : QState α) (ht : 1 ≤ s.pendingTimers)
      (h1 : s.processing = false) (h2 : s.queue ≠ []) :
      QStep s { s with pendingTimers := s.pendingTimers - 1,
                       processing := true,
                       activePasses := s.activePasses + 1 }

/-- States reachable from the constructor's initial state. -/
inductive QReachable {α : Type _} : QState α → Prop where
  | init : QReachable (initialState α)
  | step {s s' : QState α} : QReachable s → QStep s s' → QReachable s'

end MovieQueue

/-! ## Interaction tracking (`trackInteraction` controller)

The handler destructures `interactionType`, checks it against the
hard-coded `validTypes` list and throws a 400 `ApiError` before touching
any store; then it looks the movie up (404 when absent), creates the
interaction record, and for a `like` additionally updates the user's
preference aggregate. The second component counts store accesses
performed before the handler returns or throws. -/

/-- The controller's `validTypes` list. The `UserInteraction` schema enum
also contains `"search"`, but the handler does not accept it. -/
def validTypes : List String := ["view", "like", "share", "click"]

/-- Outcome of the `trackInteraction` handler. -/
inductive TrackResult where
  | apiError (status : ℕ)
  | created (interactionType : String)
deriving DecidableEq, Repr

/-- `trackInteraction` for a request with the given `interactionType`,
against a store in which the referenced movie does or does not exist:
the result together with the number of store accesses performed. -/
def trackInteraction (interactionType : String) (movieExists : Bool) :
    TrackResult × ℕ :=
  if (validTypes.contains interactionType) = false then
    (.apiError 400, 0)
  else if movieExists = false then
    (.apiError 404, 1)
  else if interactionType == "like" then
    (.created interactionType, 3)
  else
    (.created interactionType, 2)

/-! ## Sub-score bounds -/

theorem calculateDirectorWeight_bounds (d : String) (ui : UserInteractions) :
    0 ≤ calculateDirectorWeight d ui ∧ calculateDirectorWeight d ui ≤ 1 := by
  simp only [calculateDirectorWeight]
  split_ifs <;> norm_num

theorem calculatePopularity_bounds (movie : Movie) (allI : List Interaction)
    (now : ℤ) : 0 ≤ calculatePopularity movie allI now ∧
      calculatePopularity movie allI now ≤ 1 := by
  unfold calculatePopularity
  refine ⟨le_min (by positivity) (by norm_num), min_le_right _ _⟩

theorem calculateRecency_bounds (releaseDate now : ℤ) :
    0 ≤ calculateRecency releaseDate now ∧ calculateRecency releaseDate now ≤ 1 := by
  simp only [calculateRecency]
  split_ifs <;> norm_num

theorem calculateInteractionWeight_bounds (movieId : ℕ) (ui : UserInteractions) :
    0 ≤ calculateInteractionWeight movieId ui ∧
      calculateInteractionWeight movieId ui ≤ 1 := by
  simp only [calculateInteractionWeight]
  split_ifs <;> norm_num

theorem calculateGenreWeight_bounds (movieGenres : List String)
    (ui : UserInteractions) (h : movieGenres ≠ [] ∨ ui.preferredGenres = []) :
    ∃ g, calculateGenreWeight movieGenres ui = some g ∧ 0 ≤ g ∧ g ≤ 1 := by
  by_cases hp : ui.preferredGenres = []
  · exact ⟨0.5, by simp [calculateGenreWeight, hp], by norm_num, by norm_num⟩
  · have hg : movieGenres ≠ [] := h.resolve_right hp
    have hlen : movieGenres.length ≠ 0 := by
      simpa [List.length_eq_zero] using hg
    refine ⟨min (((movieGenres.filter fun genre =>
        ui.preferredGenres.any fun pref =>
          jsToLower pref == jsToLower genre).length : ℚ)
        / (movieGenres.length : ℚ)) 1, ?_,
      le_min (by positivity) (by norm_num), min_le_right _ _⟩
    simp only [calculateGenreWeight, if_neg hp, if_neg hlen]

/-- Claim C10. With an empty movie genre list and a non-empty preferred-genre
list, the genre sub-score computation divides zero by zero: the genre
sub-score, and hence the whole recommendation score, is NaN (`none`),
not a number in `[0, 1]`; the score-range guarantee therefore needs the
precondition that the movie has at least one genre (or that the user
has no genre history). -/
theorem genreWeight_nan_on_empty_genres (movie : Movie) (ui : UserInteractions)
    (allI : List Interaction) (now : ℤ)
    (hg : movie.genre = []) (hp : ui.preferredGenres ≠ []) :
    calculateGenreWeight movie.genre ui = none ∧
      calculateRecommendationScore movie ui allI now = none := by
  have h1 : calculateGenreWeight movie.genre ui = none := by
    simp [calculateGenreWeight, hp, hg]
  exact ⟨h1, by simp [calculateRecommendationScore, h1]⟩

/-- Witness for C10 at a concrete input: a movie with no genres scored
for a user who prefers `"action"`. -/
theorem genreWeight_nan_on_empty_genres_witness :
    calculateGenreWeight (Movie.mk 0 [] "dir" 5 0).genre ⟨["action"], [], []⟩ = none ∧
      calculateRecommendationScore ⟨0, [], "dir", 5, 0⟩ ⟨["action"], [], []⟩ [] 0 = none :=
  genreWeight_nan_on_empty_genres ⟨0, [], "dir", 5, 0⟩ ⟨["action"], [], []⟩ [] 0
    rfl (by decide)

/-- Claim C1, counterexample. A movie with rating 5 ∈ [0, 10] but an empty genre
list, scored for a user with a genre history, yields NaN (`none`), not a
value in `[0, 1]`: the claim fails without a precondition on the genre
list. -/
theorem score_nan_on_valid_rating :
    (0 ≤ (Movie.mk 0 [] "dir" 5 0).rating ∧ (Movie.mk 0 [] "dir" 5 0).rating ≤ 10) ∧
      calculateRecommendationScore ⟨0, [], "dir", 5, 0⟩ ⟨["action"], [], []⟩ [] 0
        = none := by
  decide

/-- Claim C1, amended. For a movie with rating in `[0, 10]` that moreover has
at least one genre (or a user with no genre history — the precondition
forced by the `0/0` counterexample), `calculateRecommendationScore`
returns a number, and that number lies in `[0, 1]`: the weighted sum of
the six sub-scores is clamped by `Math.min(score, 1.0)` and is
nonnegative. -/
theorem calculateRecommendationScore_mem_unit_interval (movie : Movie)
    (ui : UserInteractions) (allI : List Interaction) (now : ℤ)
    (hr0 : 0 ≤ movie.rating) (_hr10 : movie.rating ≤ 10)
    (hg : movie.genre ≠ [] ∨ ui.preferredGenres = []) :
    ∃ q, calculateRecommendationScore movie ui allI now = some q ∧
      0 ≤ q ∧ q ≤ 1 := by
  obtain ⟨g, hgw, hg0, hg1⟩ := calculateGenreWeight_bounds movie.genre ui hg
  obtain ⟨hd0, hd1⟩ := calculateDirectorWeight_bounds movie.director ui
  obtain ⟨hp0, hp1⟩ := calculatePopularity_bounds movie allI now
  obtain ⟨hc0, hc1⟩ := calculateRecency_bounds movie.releaseDate now
  obtain ⟨hi0, hi1⟩ := calculateInteractionWeight_bounds movie.id ui
  refine ⟨min (g * 0.4 + calculateDirectorWeight movie.director ui * 0.2
      + (movie.rating / 10) * 0.15 + calculatePopularity movie allI now * 0.1
      + calculateRecency movie.releaseDate now * 0.1
      + calculateInteractionWeight movie.id ui * 0.05) 1, ?_, ?_,
    min_le_right _ _⟩
  · simp only [calculateRecommendationScore, hgw, Option.map_some']
  · refine le_min ?_ (by norm_num)
    have hrat : (0 : ℚ) ≤ movie.rating / 10 := by positivity
    nlinarith

/-- Witness for C1's amended theorem: a one-genre movie with rating 5 and
an empty-history user gets a score in `[0, 1]`. -/
theorem calculateRecommendationScore_mem_unit_interval_witness :
    ∃ q, calculateRecommendationScore ⟨0, ["Action"], "dir", 5, 0⟩ ⟨[], [], []⟩ [] 0
      = some q ∧ 0 ≤ q ∧ q ≤ 1 :=
  calculateRecommendationScore_mem_unit_interval ⟨0, ["Action"], "dir", 5, 0⟩
    ⟨[], [], []⟩ [] 0 (by norm_num) (by norm_num) (.inl (by decide))

/-- Claim C9. For a user with empty preference history (no preferred genres and
no preferred directors), the genre and director sub-scores both take the
neutral value 0.5, for any movie. -/
theorem empty_history_neutral_subscores (movie : Movie) (ui : UserInteractions)
    (hg : ui.preferredGenres = []) (hd : ui.preferredDirectors = []) :
    calculateGenreWeight movie.genre ui = some 0.5 ∧
      calculateDirectorWeight movie.director ui = 0.5 :=
  ⟨by simp [calculateGenreWeight, hg], by simp [calculateDirectorWeight, hd]⟩

/-- Witness for C9 at a concrete movie and an empty-history user. -/
theorem empty_history_neutral_subscores_witness :
    calculateGenreWeight (Movie.mk 1 ["Action"] "Nolan" 7 0).genre ⟨[], [], []⟩
        = some 0.5 ∧
      calculateDirectorWeight (Movie.mk 1 ["Action"] "Nolan" 7 0).director
        ⟨[], [], []⟩ = 0.5 :=
  empty_history_neutral_subscores ⟨1, ["Action"], "Nolan", 7, 0⟩ ⟨[], [], []⟩ rfl rfl

/-- Claim C5. With a non-empty movie genre list and a non-empty preferred-genre
list, the genre sub-score is exactly the number of movie genres whose
lower-cased form appears in the lower-cased preferred-genre set, divided
by the number of movie genres (the `Math.min(·, 1.0)` clamp never bites,
as the fraction is at most 1). -/
theorem calculateGenreWeight_fraction (movieGenres : List String)
    (ui : UserInteractions) (hg : movieGenres ≠ []) (hp : ui.preferredGenres ≠ []) :
    calculateGenreWeight movieGenres ui =
      some (((movieGenres.countP fun g =>
          (ui.preferredGenres.map jsToLower).contains (jsToLower g) : ℕ) : ℚ)
        / (movieGenres.length : ℚ)) := by
  have hlen : movieGenres.length ≠ 0 := by
    simpa [List.length_eq_zero] using hg
  have hpred : ∀ g : String,
      (ui.preferredGenres.any fun pref => jsToLower pref == jsToLower g) =
        (ui.preferredGenres.map jsToLower).contains (jsToLower g) := by
    intro g
    rw [Bool.eq_iff_iff]
    simp only [List.any_eq_true, List.contains_iff_exists_mem_beq, List.mem_map,
      beq_iff_eq]
    constructor
    · rintro ⟨p, hmem, he⟩
      exact ⟨jsToLower p, ⟨p, hmem, rfl⟩, he.symm⟩
    · rintro ⟨a, ⟨p, hmem, rfl⟩, he⟩
      exact ⟨p, hmem, he.symm⟩
  have hcount :
      (movieGenres.filter fun genre =>
        ui.preferredGenres.any fun pref => jsToLower pref == jsToLower genre).length =
      movieGenres.countP fun g =>
        (ui.preferredGenres.map jsToLower).contains (jsToLower g) := by
    rw [← List.countP_eq_length_filter]
    exact List.countP_congr fun g _ => by rw [hpred]
  have hle : ((movieGenres.filter fun genre =>
      ui.preferredGenres.any fun pref => jsToLower pref == jsToLower genre).length : ℚ)
      / (movieGenres.length : ℚ) ≤ 1 := by
    rw [div_le_one (by positivity)]
    exact_mod_cast List.length_filter_le _ _
  simp only [calculateGenreWeight, if_neg hp, if_neg hlen]
  rw [hcount] at hle ⊢
  rw [min_eq_left hle]

/-- Witness for C5: the spec's worked example — genres
`["Action", "Drama"]` against preferred genres `["action"]` give genre
sub-score `1/2 = 0.5`, contributing `0.5 × 0.40 = 0.20` to the total. -/
theorem calculateGenreWeight_fraction_witness :
    calculateGenreWeight ["Action", "Drama"] ⟨["action"], [], []⟩ = some 0.5 ∧
      (0.5 : ℚ) * 0.4 = 0.2 :=
  ⟨(calculateGenreWeight_fraction ["Action", "Drama"] ⟨["action"], [], []⟩
      (by decide) (by decide)).trans (by
        rw [show (List.countP (fun g => (List.map jsToLower ["action"]).contains
          (jsToLower g)) ["Action", "Drama"]) = 1 from by decide]
        norm_num),
    by norm_num⟩

/-- Claim C6. The trending score is
`0.5·(rating/10) + 0.5·min(recentInteractionCount/50, 1.0)` where the
recent count is the number of interactions on the movie whose timestamp
exists and lies within the last seven days; and on the spec's worked
example — rating 8 with 60 recent interactions — it evaluates to
`0.4 + 0.5 = 0.9`. -/
theorem trendingScore_formula (movie : Movie) (allI : List Interaction) (now : ℤ) :
    (trendingScore movie allI now =
      0.5 * (movie.rating / 10)
        + 0.5 * min (((allI.countP fun i =>
            decide (i.movieId = movie.id ∧
              ∃ t ∈ i.timestamp, now - 7 * 24 * 60 * 60 * 1000 ≤ t)) : ℚ)
          / 50) 1) ∧
      trendingScore ⟨0, [], "dir", 8, 0⟩
        (List.replicate 60 ⟨0, some 0⟩) 0 = 0.9 := by
  constructor
  · have hcount : recentInteractionCount movie allI now =
        allI.countP fun i =>
          decide (i.movieId = movie.id ∧
            ∃ t ∈ i.timestamp, now - 7 * 24 * 60 * 60 * 1000 ≤ t) := by
      rw [recentInteractionCount, ← List.countP_eq_length_filter]
      refine List.countP_congr fun i _ => ?_
      rw [Bool.eq_iff_iff]
      rcases i with ⟨mid, _ | t⟩ <;>
        simp [tsGe, sevenDaysMs, Option.mem_def]
    rw [trendingScore, hcount]
    ring
  · have h60 : recentInteractionCount ⟨0, [], "dir", 8, 0⟩
        (List.replicate 60 ⟨0, some 0⟩) 0 = 60 := by decide
    rw [trendingScore, h60]
    norm_num

/-- Claim C4, counterexample. `"search"` belongs to the claim's five-element
interaction-type set (and to the `UserInteraction` schema enum), yet the
`trackInteraction` handler rejects it synchronously with a 400 validation
error and zero store accesses, instead of creating an interaction
record. -/
theorem trackInteraction_rejects_search :
    trackInteraction "search" true = (.apiError 400, 0) ∧
      "search" ∈ ["view", "like", "share", "search", "click"] := by
  decide

/-- Claim C4, amended. `trackInteraction` accepts exactly the controller's
`validTypes = {view, like, share, click}`: an in-set type passes
validation, reaches the store and (when the movie exists) creates the
interaction record, while any type outside the set — including
`"search"` — is rejected with a 400 validation error before any store
access. -/
theorem trackInteraction_validTypes (ty : String) (movieExists : Bool) :
    (ty ∈ validTypes →
      (trackInteraction ty movieExists).1 ≠ .apiError 400 ∧
        1 ≤ (trackInteraction ty movieExists).2 ∧
        (movieExists = true →
          (trackInteraction ty movieExists).1 = .created ty)) ∧
    (ty ∉ validTypes → trackInteraction ty movieExists = (.apiError 400, 0)) := by
  constructor
  · intro hmem
    have hc : validTypes.contains ty = true := List.elem_iff.mpr hmem
    have hred : trackInteraction ty movieExists =
        if movieExists = false then (.apiError 404, 1)
        else if ty == "like" then (.created ty, 3) else (.created ty, 2) := by
      rw [trackInteraction, hc]
      norm_num
    rcases movieExists with _ | _
    · rw [show trackInteraction ty false = (.apiError 404, 1) by
        rw [hred]; norm_num]
      exact ⟨by decide, by norm_num, fun h => by cases h⟩
    · by_cases hl : (ty == "like") = true
      · rw [show trackInteraction ty true = (.created ty, 3) by
          rw [hred]; simp [hl]]
        exact ⟨by simp, by norm_num, fun _ => rfl⟩
      · rw [show trackInteraction ty true = (.created ty, 2) by
          rw [hred]; simp [hl]]
        exact ⟨by simp, by norm_num, fun _ => rfl⟩
  · intro hmem
    have hc : validTypes.contains ty = false := by
      rcases h : validTypes.contains ty with _ | _
      · rfl
      · exact absurd (List.elem_iff.mp h) hmem
    rw [trackInteraction, hc]
    norm_num

/-- Witness for C4's amended theorem: `"view"` with an existing movie is
accepted and creates the record; `"search"` with a missing movie is
rejected with 400 and no store access. -/
theorem trackInteraction_validTypes_witness :
    (trackInteraction "view" true).1 = .created "view" ∧
      trackInteraction "search" false = (.apiError 400, 0) :=
  ⟨((trackInteraction_validTypes "view" true).1 (by decide)).2.2 rfl,
    (trackInteraction_validTypes "search" false).2 (by decide)⟩

/-! ## Stable sort lemmas -/

theorem insertDesc_eq_append {α : Type _} (key : α → Option ℚ) (x : α)
    (l : List α) :
    ∃ l₁ l₂, l = l₁ ++ l₂ ∧ insertDesc key x l = l₁ ++ x :: l₂ ∧
      ∀ y ∈ l₁, optLt (key x) (key y) = true := by
  induction l with
  | nil => exact ⟨[], [], rfl, rfl, by simp⟩
  | cons y ys ih =>
    by_cases h : optLt (key x) (key y) = true
    · obtain ⟨l₁, l₂, he, hi, hall⟩ := ih
      refine ⟨y :: l₁, l₂, by simp [he], by simp [insertDesc, h, hi], ?_⟩
      intro z hz
      rcases List.mem_cons.mp hz with rfl | hz
      · exact h
      · exact hall z hz
    · exact ⟨[], y :: ys, rfl, by simp [insertDesc, h], by simp⟩

theorem mem_insertDesc {α : Type _} {key : α → Option ℚ} {x a : α}
    {l : List α} : a ∈ insertDesc key x l ↔ a = x ∨ a ∈ l := by
  obtain ⟨l₁, l₂, he, hi, -⟩ := insertDesc_eq_append key x l
  subst he
  rw [hi]
  simp only [List.mem_append, List.mem_cons]
  tauto

theorem mem_sortDesc {α : Type _} {key : α → Option ℚ} {a : α} {l : List α} :
    a ∈ sortDesc key l ↔ a ∈ l := by
  induction l with
  | nil => simp [sortDesc]
  | cons x xs ih =>
    simp only [sortDesc, mem_insertDesc, ih, List.mem_cons]

theorem filter_insertDesc_pos {α : Type _} (key : α → Option ℚ) (x : α)
    (l : List α) (c : ℚ) (hx : key x = some c) :
    (insertDesc key x l).filter (fun a => decide (key a = some c)) =
      x :: l.filter (fun a => decide (key a = some c)) := by
  obtain ⟨l₁, l₂, he, hi, hall⟩ := insertDesc_eq_append key x l
  have h1 : l₁.filter (fun a => decide (key a = some c)) = [] := by
    rw [List.filter_eq_nil_iff]
    intro a ha
    have hlt := hall a ha
    rw [hx] at hlt
    rcases hk : key a with _ | v
    · rw [hk] at hlt
      simp [optLt] at hlt
    · rw [hk] at hlt
      simp only [optLt, decide_eq_true_eq] at hlt
      simp only [hk, decide_eq_true_eq, Option.some.injEq]
      intro hv
      exact absurd hlt (by rw [hv]; exact lt_irrefl c)
  subst he
  rw [hi, List.filter_append, h1, List.filter_append, List.nil_append,
    List.filter_cons_of_pos (by simp [hx]), h1, List.nil_append]

theorem filter_insertDesc_neg {α : Type _} (key : α → Option ℚ) (x : α)
    (l : List α) (c : ℚ) (hx : key x ≠ some c) :
    (insertDesc key x l).filter (fun a => decide (key a = some c)) =
      l.filter (fun a => decide (key a = some c)) := by
  obtain ⟨l₁, l₂, he, hi, -⟩ := insertDesc_eq_append key x l
  subst he
  rw [hi, List.filter_append, List.filter_append,
    List.filter_cons_of_neg (by simp [hx])]

theorem sortDesc_filter {α : Type _} (key : α → Option ℚ) (l : List α)
    (c : ℚ) :
    (sortDesc key l).filter (fun a => decide (key a = some c)) =
      l.filter (fun a => decide (key a = some c)) := by
  induction l with
  | nil => rfl
  | cons x xs ih =>
    by_cases hx : key x = some c
    · rw [sortDesc, filter_insertDesc_pos _ _ _ _ hx, ih,
        List.filter_cons_of_pos (by simp [hx])]
    · rw [sortDesc, filter_insertDesc_neg _ _ _ _ hx, ih,
        List.filter_cons_of_neg (by simp [hx])]

theorem insertDesc_pairwise {α : Type _} (key : α → Option ℚ) (x : α)
    (l : List α) (hx : (key x).isSome) (hl : ∀ a ∈ l, (key a).isSome)
    (h : l.Pairwise fun a b => scoreGe (key a) (key b)) :
    (insertDesc key x l).Pairwise fun a b => scoreGe (key a) (key b) := by
  induction l with
  | nil => simp [insertDesc]
  | cons y ys ih =>
    obtain ⟨hy, hys⟩ := List.pairwise_cons.mp h
    obtain ⟨vx, hvx⟩ := Option.isSome_iff_exists.mp hx
    obtain ⟨vy, hvy⟩ := Option.isSome_iff_exists.mp (hl y (List.mem_cons_self y ys))
    by_cases hxy : optLt (key x) (key y) = true
    · rw [show insertDesc key x (y :: ys) = y :: insertDesc key x ys from by
        simp [insertDesc, hxy]]
      rw [List.pairwise_cons]
      refine ⟨?_, ih (fun a ha => hl a (List.mem_cons_of_mem y ha)) hys⟩
      intro z hz
      rcases mem_insertDesc.mp hz with rfl | hz
      · rw [hvx, hvy] at hxy
        simp only [optLt, decide_eq_true_eq] at hxy
        exact ⟨vy, vx, hvy, hvx, le_of_lt hxy⟩
      · exact hy z hz
    · rw [show insertDesc key x (y :: ys) = x :: y :: ys from by
        simp [insertDesc, hxy]]
      rw [List.pairwise_cons]
      refine ⟨?_, h⟩
      intro z hz
      have hyx : vy ≤ vx := by
        rw [hvx, hvy] at hxy
        simp only [optLt, decide_eq_true_eq] at hxy
        exact le_of_not_lt hxy
      rcases List.mem_cons.mp hz with rfl | hz
      · exact ⟨vx, vy, hvx, hvy, hyx⟩
      · obtain ⟨vy', vz, hvy', hvz, hzy⟩ := hy z hz
        rw [hvy] at hvy'
        injection hvy' with hvy''
        exact ⟨vx, vz, hvx, hvz, le_trans (hvy'' ▸ hzy) hyx⟩

theorem sortDesc_pairwise {α : Type _} (key : α → Option ℚ) (l : List α)
    (hl : ∀ a ∈ l, (key a).isSome) :
    (sortDesc key l).Pairwise fun a b => scoreGe (key a) (key b) := by
  induction l with
  | nil => simp [sortDesc]
  | cons x xs ih =>
    have hxs : ∀ a ∈ xs, (key a).isSome :=
      fun a ha => hl a (List.mem_cons_of_mem x ha)
    exact insertDesc_pairwise key x _ (hl x (List.mem_cons_self x xs))
      (fun a ha => hxs a (mem_sortDesc.mp ha)) (ih hxs)

theorem insertDesc_map {α β : Type _} (key : α → Option ℚ) (g : β → α)
    (x : β) (l : List β) :
    insertDesc key (g x) (l.map g) = (insertDesc (fun b => key (g b)) x l).map g := by
  induction l with
  | nil => rfl
  | cons y ys ih =>
    simp only [List.map_cons, insertDesc]
    by_cases h : optLt (key (g x)) (key (g y)) = true
    · simp [h, ih]
    · simp [h]

theorem sortDesc_map {α β : Type _} (key : α → Option ℚ) (g : β → α)
    (l : List β) :
    sortDesc key (l.map g) = (sortDesc (fun b => key (g b)) l).map g := by
  induction l with
  | nil => rfl
  | cons x xs ih =>
    simp only [List.map_cons, sortDesc]
    rw [ih, insertDesc_map]

theorem filter_take_prefix_filter {α : Type _} (p : α → Bool) (l : List α)
    (n : ℕ) : (l.take n).filter p <+: l.filter p :=
  ⟨(l.drop n).filter p, by rw [← List.filter_append, List.take_append_drop]⟩

/-- The personalized feed is the score-keyed stable descending sort of
the candidate list, truncated to `limit`. -/
theorem getPersonalizedFeed_eq (movies : List Movie) (ui : UserInteractions)
    (allI : List Interaction) (now : ℤ) (limit : ℕ) :
    getPersonalizedFeed movies ui allI now limit =
      ((sortDesc (fun m => calculateRecommendationScore m ui allI now)
        movies).take limit) := by
  simp only [getPersonalizedFeed]
  rw [sortDesc_map, ← List.map_take, List.map_map,
    show (Prod.fst ∘ fun movie : Movie =>
      (movie, calculateRecommendationScore movie ui allI now)) = id from rfl,
    List.map_id]

/-- The trending feed is the trending-score-keyed stable descending sort
of the candidate list, truncated to `limit`. -/
theorem getTrendingMovies_eq (movies : List Movie) (allI : List Interaction)
    (now : ℤ) (limit : ℕ) :
    getTrendingMovies movies allI now limit =
      ((sortDesc (fun m => some (trendingScore m allI now)) movies).take limit) := by
  simp only [getTrendingMovies]
  rw [sortDesc_map, ← List.map_take, List.map_map,
    show (Prod.fst ∘ fun movie : Movie =>
      (movie, trendingScore movie allI now)) = id from rfl,
    List.map_id]

/-- Claim C2. Both feeds return movies sorted in descending order of their
respective score, truncated to at most `limit` entries, and the sort is
stable: for every score value `c`, the feed's movies of score `c` form
an initial segment, in the same order, of the input's movies of score
`c`. For the personalized feed the hypothesis that every candidate's
score is numeric (`isSome`) rules out NaN scores, over which the
JavaScript comparator orders nothing. -/
theorem feeds_sorted_truncated_stable (movies : List Movie)
    (ui : UserInteractions) (allI : List Interaction) (now : ℤ) (limit : ℕ)
    (hnum : ∀ m ∈ movies, (calculateRecommendationScore m ui allI now).isSome) :
    ((getPersonalizedFeed movies ui allI now limit).Pairwise fun a b =>
        scoreGe (calculateRecommendationScore a ui allI now)
          (calculateRecommendationScore b ui allI now)) ∧
      (getPersonalizedFeed movies ui allI now limit).length ≤ limit ∧
      (∀ c : ℚ,
        (getPersonalizedFeed movies ui allI now limit).filter
            (fun m => decide (calculateRecommendationScore m ui allI now = some c))
          <+: movies.filter
            (fun m => decide (calculateRecommendationScore m ui allI now = some c))) ∧
      ((getTrendingMovies movies allI now limit).Pairwise fun a b =>
        trendingScore b allI now ≤ trendingScore a allI now) ∧
      (getTrendingMovies movies allI now limit).length ≤ limit ∧
      (∀ c : ℚ,
        (getTrendingMovies movies allI now limit).filter
            (fun m => decide (trendingScore m allI now = c))
          <+: movies.filter (fun m => decide (trendingScore m allI now = c))) := by
  refine ⟨?_, ?_, ?_, ?_, ?_, ?_⟩
  · rw [getPersonalizedFeed_eq]
    exact ((sortDesc_pairwise _ movies hnum).sublist (List.take_sublist _ _))
  · rw [getPersonalizedFeed_eq]
    exact List.length_take_le _ _
  · intro c
    rw [getPersonalizedFeed_eq]
    have h := filter_take_prefix_filter
      (fun m => decide (calculateRecommendationScore m ui allI now = some c))
      (sortDesc (fun m => calculateRecommendationScore m ui allI now) movies) limit
    rwa [sortDesc_filter] at h
  · rw [getTrendingMovies_eq]
    have hp := sortDesc_pairwise (fun m => some (trendingScore m allI now))
      movies (fun m _ => rfl)
    refine (hp.sublist (List.take_sublist _ _)).imp fun {a b} hab => ?_
    obtain ⟨x, y, hx, hy, hxy⟩ := hab
    injection hx with hx
    injection hy with hy
    rw [← hx, ← hy] at hxy
    exact hxy
  · rw [getTrendingMovies_eq]
    exact List.length_take_le _ _
  · intro c
    rw [getTrendingMovies_eq]
    have h := filter_take_prefix_filter
      (fun m => decide ((fun m => some (trendingScore m allI now)) m = some c))
      (sortDesc (fun m => some (trendingScore m allI now)) movies) limit
    rw [sortDesc_filter] at h
    have hpred : (fun m => decide ((fun m => some (trendingScore m allI now)) m
        = some c)) = fun m => decide (trendingScore m allI now = c) := by
      funext m
      simp
    rwa [hpred] at h

/-- Witness for C2 at a concrete one-movie input (both feeds, limit 20):
the all-numeric hypothesis holds since the user has no genre history. -/
theorem feeds_sorted_truncated_stable_witness :
    (getPersonalizedFeed [⟨1, ["Action"], "dir", 5, 0⟩] ⟨[], [], []⟩ [] 0 20).length
        ≤ 20 ∧
      (getTrendingMovies [⟨1, ["Action"], "dir", 5, 0⟩] [] 0 20).length ≤ 20 :=
  ⟨(feeds_sorted_truncated_stable [⟨1, ["Action"], "dir", 5, 0⟩] ⟨[], [], []⟩
      [] 0 20 (by decide)).2.1,
    (feeds_sorted_truncated_stable [⟨1, ["Action"], "dir", 5, 0⟩] ⟨[], [], []⟩
      [] 0 20 (by decide)).2.2.2.2.1⟩

/-! ## Batch queue theorems -/

namespace MovieQueue

/-- Claim C3. An item enqueued with an always-failing insert operation is
attempted once, re-appended to the queue tail and retried exactly
`maxRetries = 3` further times, and is then dropped from the queue with
a logged terminal failure: the whole run is four one-item batches (three
re-queues, one drop) ending with the queue drained, so the queue length
never grows. -/
theorem alwaysFailing_item_dropped_after_maxRetries {α : Type _} (d : α)
    (ts : ℤ) :
    processQueue (enqueue [] d (fun _ => false) ts) =
      [[.requeued d], [.requeued d], [.requeued d], [.dropped d]] := by
  simp [enqueue, processQueue, processItem, batchSize, maxRetries]

/-- Sequentially enqueuing a list of payloads builds exactly the
fresh-item queue, in input order. -/
theorem enqueueAll_eq_map {α : Type _} (items : List α) (f : ℕ → Bool)
    (now : ℤ) :
    enqueueAll items f now = items.map fun d => ⟨d, f, 0, now⟩ := by
  suffices h : ∀ q : List (QueueItem α),
      items.foldl (fun q d => enqueue q d f now) q =
        q ++ items.map fun d => ⟨d, f, 0, now⟩ by
    simpa using h []
  induction items with
  | nil => intro q; simp
  | cons x xs ih =>
    intro q
    rw [List.foldl_cons, ih]
    simp [enqueue]

/-- Draining a queue whose every item's next attempt succeeds: every
item produces exactly one success event, in queue order, and every batch
has at most `batchSize` items. -/
theorem processQueue_all_success {α : Type _} :
    ∀ (n : ℕ) (q : List (QueueItem α)), q.length ≤ n →
      (∀ i ∈ q, i.insertOk i.retries = true) →
      ((processQueue q).flatten = q.map fun i => QEvent.success i.data) ∧
        ∀ b ∈ processQueue q, b.length ≤ batchSize := by
  intro n
  induction n with
  | zero =>
    intro q hq _
    rw [List.length_eq_zero.mp (Nat.le_zero.mp hq)]
    simp [processQueue]
  | succ n ih =>
    intro q hq h
    match q with
    | [] => simp [processQueue]
    | x :: xs =>
      have hbatch_all : ∀ i ∈ (x :: xs).take batchSize,
          i.insertOk i.retries = true :=
        fun i hi => h i (List.mem_of_mem_take hi)
      have hfm : ((x :: xs).take batchSize).filterMap
          (fun i => (processItem i).2) = [] := by
        rw [List.filterMap_eq_nil_iff]
        intro i hi
        simp [processItem, hbatch_all i hi]
      have hstep : processQueue (x :: xs) =
          (((x :: xs).take batchSize).map fun i => (processItem i).1)
            :: processQueue ((x :: xs).drop batchSize) := by
        simp only [processQueue]
        rw [hfm, List.append_nil]
      have hlen : ((x :: xs).drop batchSize).length ≤ n := by
        simp only [List.length_drop]
        have := List.length_cons x xs ▸ hq
        simp [batchSize]
        omega
      obtain ⟨hjoin, hb⟩ := ih ((x :: xs).drop batchSize) hlen
        (fun i hi => h i (List.mem_of_mem_drop hi))
      rw [hstep]
      have hev : ((x :: xs).take batchSize).map (fun i => (processItem i).1) =
          ((x :: xs).take batchSize).map fun i => QEvent.success i.data :=
        List.map_congr_left fun i hi => by simp [processItem, hbatch_all i hi]
      constructor
      · rw [List.flatten_cons, hjoin, hev, ← List.map_append,
          List.take_append_drop]
      · intro b hb'
        rcases List.mem_cons.mp hb' with rfl | hb'
        · rw [List.length_map]
          exact List.length_take_le _ _
        · exact hb b hb'

/-- Claim C7. Enqueuing any list of payloads whose insert operation always
succeeds and then processing yields exactly one success event per
payload, in order — each item is executed exactly once, in batches of at
most `batchSize = 10` — and the drain terminates with the queue empty
(every enqueued item is accounted for by its success event). -/
theorem enqueueAll_success_all_processed {α : Type _} (items : List α)
    (ts : ℤ) :
    ((processQueue (enqueueAll items (fun _ => true) ts)).flatten =
        items.map fun d => QEvent.success d) ∧
      ∀ b ∈ processQueue (enqueueAll items (fun _ => true) ts),
        b.length ≤ batchSize := by
  rw [enqueueAll_eq_map]
  obtain ⟨h1, h2⟩ := processQueue_all_success
    (items.map fun d => (⟨d, fun _ => true, 0, ts⟩ : QueueItem α)).length
    (items.map fun d => ⟨d, fun _ => true, 0, ts⟩) le_rfl
    (by
      intro i hi
      obtain ⟨d, -, rfl⟩ := List.mem_map.mp hi
      rfl)
  refine ⟨?_, h2⟩
  rw [h1, List.map_map]
  rfl

/-- Witness for C7: the concrete two-payload always-succeeding run — two
success events in one batch. -/
theorem enqueueAll_success_all_processed_witness :
    ((processQueue (enqueueAll [0, 1] (fun _ => true) 0)).flatten =
        [0, 1].map fun d => QEvent.success d) ∧
      ∀ b ∈ processQueue (enqueueAll ([0, 1] : List ℕ) (fun _ => true) 0),
        b.length ≤ batchSize :=
  enqueueAll_success_all_processed [0, 1] 0

/-- Claim C8. In every reachable state of the queue's step relation, the
number of active processing passes equals one exactly when the
`processing` flag is set and zero otherwise — in particular at most one
pass is ever active: the flag is set atomically when a pass starts
(guarded so an invocation while it is set leaves the state unchanged)
and cleared only when the pass finishes. -/
theorem queue_single_active_pass {α : Type _} (s : QState α)
    (h : QReachable s) :
    s.activePasses = (if s.processing then 1 else 0) ∧ s.activePasses ≤ 1 := by
  have hmain : s.activePasses = (if s.processing then 1 else 0) := by
    induction h with
    | init => rfl
    | step hr hs ih =>
      rename_i s s'
      cases hs with
      | enqueue d f ts => simpa using ih
      | invokeNoop hno => simpa using ih
      | invokeStart h1 h2 =>
        rw [h1] at ih
        simp at ih
        simp [ih]
      | batchStep h1 h2 => simpa using ih
      | finish hge =>
        rcases hp : s.processing with _ | _
        · rw [hp] at ih
          simp at ih ⊢
          omega
        · rw [hp] at ih
          simp at ih
          simp [ih]
      | timerNoop ht hno => simpa using ih
      | timerStart ht h1 h2 =>
        rw [h1] at ih
        simp at ih
        simp [ih]
  refine ⟨hmain, ?_⟩
  rw [hmain]
  split <;> omega

/-- Witness for C8: the invariant at the initial state, which is
reachable by construction. -/
theorem queue_single_active_pass_witness :
    (initialState ℕ).activePasses =
        (if (initialState ℕ).processing then 1 else 0) ∧
      (initialState ℕ).activePasses ≤ 1 :=
  queue_single_active_pass (initialState ℕ) QReachable.init

end MovieQueue

end MernMovie
